import Mathlib

/-!
Shallow embedding of the strategy containers of the `ilqgames` repository
(`include/ilqgames/utils/strategy.h`, `include/ilqgames/utils/types.h`,
`src/one_player_reachability_example.cpp`).

Eigen vectors (`VectorXf`) are modelled as lists of rationals and Eigen
matrices (`MatrixXf`) as lists of rows; the dimension of a vector is its
length and the shape of a matrix is (number of rows, length of each row).
Exact rational arithmetic stands in for IEEE single precision wherever the
spec speaks of equality "to floating-point tolerance"; the one claim that is
genuinely about rounding (the float computation of the number of timesteps)
is settled against an explicit model of binary32 round-to-nearest-even.
-/

namespace ILQGames

/-- `VectorXf`: a vector is a list of coefficients. -/
abbrev Vec : Type := List ℚ

/-- `MatrixXf`: a matrix is the list of its rows. -/
abbrev Mat : Type := List (List ℚ)

/-- Coefficient-wise vector sum. -/
def vecAdd (a b : Vec) : Vec := List.zipWith (· + ·) a b

/-- Coefficient-wise vector difference. -/
def vecSub (a b : Vec) : Vec := List.zipWith (· - ·) a b

/-- Coefficient-wise vector negation. -/
def vecNeg (a : Vec) : Vec := a.map Neg.neg

/-- Dot product of two vectors. -/
def dot (a b : Vec) : ℚ := (List.zipWith (· * ·) a b).sum

/-- Matrix-vector product: one dot product per row. -/
def matVec (M : Mat) (v : Vec) : Vec := M.map fun row => dot row v

/-- `VectorXf::Zero(n)`. -/
def vecZero (n : ℕ) : Vec := List.replicate n 0

/-- `MatrixXf::Zero(rows, cols)`. -/
def matZero (rows cols : ℕ) : Mat := List.replicate rows (vecZero cols)

/-- Eigen `.size()` of a matrix: its total number of coefficients. -/
def matSize (M : Mat) : ℕ := (M.map List.length).sum

/-- Modelled from the spec: `OperatingPointRef` lives in
`include/ilqgames/utils/operating_point.h`, which is not among the provided
sources.  Per the spec's data model an operating point holds an ordered
sequence of joint states and, for each timestep, one control vector per
player; `strategy.h` accesses these as `op.xs[kk]` and
`op.us[kk][player_idx]` (time-major, then player). -/
structure OperatingPointRef where
  xs : List Vec
  us : List (List Vec)

/-- `StrategyRef` (strategy.h): feedback gains `Ps` and feedforward terms
`alphas`, each a view into a shared primal buffer. -/
structure StrategyRef where
  Ps : List Mat
  alphas : List Vec

/-- The number of primal entries per timestep claimed by a `StrategyRef`:
`xdim * udim` for the gain plus `udim` for the feedforward term. -/
def blockSize (xdim udim : ℕ) : ℕ := xdim * udim + udim

/-- The `StrategyRef(horizon, xdim, udim, primals, initial_idx)` constructor.
At step `kk` it executes `Ps.emplace_back(&primals(primal_idx), xdim, udim)`
— an `Eigen::Map<MatrixXf>` whose arguments are (data, rows, cols), so the
mapped matrix has `xdim` rows and `udim` columns and, MatrixXf being
column-major, entry `(r, c)` views `primals[primal_idx + c * xdim + r]` —
then advances `primal_idx` by `xdim * udim`, maps
`alphas.emplace_back(primals.segment(primal_idx, udim))`, and advances by
`udim`.  Out-of-range buffer reads are modelled by `getD`'s default `0`. -/
def StrategyRef.make (horizon xdim udim : ℕ) (primals : List ℚ)
    (initial_idx : ℕ) : StrategyRef where
  Ps := (List.range horizon).map fun kk =>
    (List.range xdim).map fun r =>
      (List.range udim).map fun c =>
        primals.getD (initial_idx + kk * blockSize xdim udim + c * xdim + r) 0
  alphas := (List.range horizon).map fun kk =>
    (List.range udim).map fun j =>
      primals.getD (initial_idx + kk * blockSize xdim udim + xdim * udim + j) 0

/-- `StrategyRef::operator()(time_index, x)`:
`-Ps[time_index] * x - alphas[time_index]`. -/
def StrategyRef.apply (s : StrategyRef) (time_index : ℕ) (x : Vec) : Vec :=
  vecSub (vecNeg (matVec (s.Ps.getD time_index []) x))
    (s.alphas.getD time_index [])

/-- `StrategyRef::NumVariables()`:
`horizon * (Ps.front().size() + alphas.front().size())`
with `horizon = Ps.size()` (the `CHECK_EQ(horizon, alphas.size())` guard is
treated separately, as a proposition). -/
def StrategyRef.NumVariables (s : StrategyRef) : ℕ :=
  s.Ps.length * (matSize (s.Ps.headD []) + (s.alphas.headD []).length)

/-- The `CHECK_EQ(horizon, alphas.size())` assertion inside
`StrategyRef::NumVariables`. -/
def StrategyRef.checkOk (s : StrategyRef) : Prop :=
  s.Ps.length = s.alphas.length

/-- `Strategy` (strategy.h): owned feedback gains and feedforward terms. -/
structure Strategy where
  Ps : List Mat
  alphas : List Vec

/-- The `Strategy(horizon, xdim, udim)` constructor: `horizon` copies of
`MatrixXf::Zero(udim, xdim)` and of `VectorXf::Zero(udim)`. -/
def Strategy.init (horizon xdim udim : ℕ) : Strategy where
  Ps := List.replicate horizon (matZero udim xdim)
  alphas := List.replicate horizon (vecZero udim)

/-- The `Strategy(other, op, player_idx)` constructor from a `StrategyRef`
and an `OperatingPointRef`.  `Ps` and `alphas` are sized from `other`; the
loop runs `kk` over `Ps.size()` and sets `Ps[kk] = other.Ps[kk]` and
`alphas[kk] = other.alphas[kk] + op.us[kk][player_idx] - Ps[kk] * op.xs[kk]`.
Slots of `alphas` beyond `other.Ps.size()` (possible only when the two
sequences of `other` have different lengths, which no provided constructor
produces) stay default-constructed, i.e. empty. -/
def Strategy.fromRef (other : StrategyRef) (op : OperatingPointRef)
    (player_idx : ℕ) : Strategy where
  Ps := other.Ps
  alphas := (List.range other.alphas.length).map fun kk =>
    if kk < other.Ps.length then
      vecSub (vecAdd (other.alphas.getD kk [])
          ((op.us.getD kk []).getD player_idx []))
        (matVec (other.Ps.getD kk []) (op.xs.getD kk []))
    else []

/-- `Strategy::operator()(time_index, delta_x, u_ref)`:
`u_ref - Ps[time_index] * delta_x - alphas[time_index]`. -/
def Strategy.apply (s : Strategy) (time_index : ℕ) (delta_x u_ref : Vec) :
    Vec :=
  vecSub (vecSub u_ref (matVec (s.Ps.getD time_index []) delta_x))
    (s.alphas.getD time_index [])

/-- `Strategy::NumVariables()`, same formula as `StrategyRef::NumVariables`. -/
def Strategy.NumVariables (s : Strategy) : ℕ :=
  s.Ps.length * (matSize (s.Ps.headD []) + (s.alphas.headD []).length)

/-- The `CHECK_EQ(horizon, alphas.size())` assertion inside
`Strategy::NumVariables`. -/
def Strategy.checkOk (s : Strategy) : Prop :=
  s.Ps.length = s.alphas.length

/-- The buffer indices viewed by the gain `Ps[k]` of a `StrategyRef`, in
storage (column-major) order, when `Ps[k]`'s map starts at `base`. -/
def pIndices (xdim udim base : ℕ) : List ℕ :=
  (List.range (xdim * udim)).map (base + ·)

/-- The buffer indices viewed by the feedforward term `alphas[k]` of a
`StrategyRef` whose segment starts at `base`. -/
def aIndices (udim base : ℕ) : List ℕ := (List.range udim).map (base + ·)

/-- All buffer indices viewed by
`StrategyRef(horizon, xdim, udim, primals, i0)`, in layout order
`P_0, alpha_0, P_1, alpha_1, ...`. -/
def layout (horizon xdim udim i0 : ℕ) : List ℕ :=
  (List.range horizon).flatMap fun kk =>
    pIndices xdim udim (i0 + kk * blockSize xdim udim) ++
    aIndices udim (i0 + kk * blockSize xdim udim + xdim * udim)

/-- `sgn(x, std::true_type)` from types.h, for signed arithmetic types:
`(T(0) < x) - (x < T(0))` with the booleans converted back to `T`.
Modelled generically over a linear ordered ring, instantiated at `ℤ` (the
signed integer types) and `ℚ` (the floating-point types, in exact
arithmetic). -/
def sgnSigned {α : Type} [LinearOrderedRing α] (x : α) : α :=
  (if (0 : α) < x then 1 else 0) - (if x < 0 then 1 else 0)

/-- `sgn(x, std::false_type)` from types.h, for unsigned arithmetic types:
`T(0) < x` converted back to `T`, modelled on `ℕ`. -/
def sgnUnsigned (x : ℕ) : ℕ := if 0 < x then 1 else 0

/-- Round a rational to the nearest integer, ties to even — the IEEE-754
default rounding of a scaled significand. -/
def rne (x : ℚ) : ℤ :=
  if x - ⌊x⌋ < 1 / 2 then ⌊x⌋
  else if 1 / 2 < x - ⌊x⌋ then ⌊x⌋ + 1
  else if ⌊x⌋ % 2 = 0 then ⌊x⌋ else ⌊x⌋ + 1

/-- Binary32 (single precision) round-to-nearest-even of a rational lying in
the binade `[2^e, 2^(e+1))`: the nearest multiple of `2^(e-23)` (24-bit
significand).  The theorems using a concrete `e` carry the bracketing
`2^e ≤ q < 2^(e+1)` as an explicit conjunct. -/
def round32In (e : ℤ) (q : ℚ) : ℚ :=
  (rne (q * 2 ^ (23 - e)) : ℚ) * 2 ^ (e - 23)

/-- Binary64 (double precision) round-to-nearest-even of a rational lying in
the binade `[2^e, 2^(e+1))`: the nearest multiple of `2^(e-52)` (53-bit
significand). -/
def round64In (e : ℤ) (q : ℚ) : ℚ :=
  (rne (q * 2 ^ (52 - e)) : ℚ) * 2 ^ (e - 52)

/-! Constants of `one_player_reachability_example.cpp`.  `Time` is `float`;
the C literals `0.1` and `M_PI` are doubles, narrowed to float on
initialization.  -/

/-- The IEEE-754 double value of the C literal `0.1`
(`0.1000000000000000055511151231257827…`). -/
def kTimeStepLiteral : ℚ := 3602879701896397 / 2 ^ 55

/-- `kTimeStep = 0.1` as `Time = float`: the double literal narrowed to
binary32 (`0.1` lies in the binade `[2^-4, 2^-3)`). -/
def kTimeStep : ℚ := round32In (-4) kTimeStepLiteral

/-- `kTimeHorizon = 2.0` (exact in every binary format). -/
def kTimeHorizon : ℚ := 2

/-- `kNumTimeSteps = static_cast<size_t>(kTimeHorizon / kTimeStep)`: the
float quotient (correctly rounded in the binade `[2^4, 2^5)`) truncated
toward zero. -/
def kNumTimeSteps : ℕ := (⌊round32In 4 (kTimeHorizon / kTimeStep)⌋).toNat

/-- The IEEE-754 double value of `M_PI`
(`3.14159265358979311599796346854…`). -/
def kPiLiteral : ℚ := 884279719003555 / 2 ^ 48

/-- `kP1InitialX = 2.0`. -/
def kP1InitialX : ℚ := 2

/-- `kP1InitialY = 2.0`. -/
def kP1InitialY : ℚ := 2

/-- `kP1InitialTheta = -M_PI` as float: the double `M_PI` (in the binade
`[2^1, 2^2)`) narrowed to binary32, negated. -/
def kP1InitialTheta : ℚ := -(round32In 1 kPiLiteral)

/-- `kP1InitialOmega = 0.0`. -/
def kP1InitialOmega : ℚ := 0

/-- `kP1GoalX = 0.0`. -/
def kP1GoalX : ℚ := 0

/-- `kP1GoalY = 0.0`. -/
def kP1GoalY : ℚ := 0

/-- `kTargetRadius = 0.5` (exact in binary32). -/
def kTargetRadius : ℚ := 1 / 2

/-- Modelled from the spec: the state indices `P1::kPxIdx`, `P1::kPyIdx`,
`P1::kThetaIdx`, `P1::kOmegaIdx` of `SinglePlayerDelayedDubinsCar`, whose
header is not among the provided sources; the spec's scenario is a
Dubins-car-like state `(x, y, theta, omega)`, modelled here at indices
0, 1, 2, 3 of a 4-dimensional joint state. -/
def kP1XIdx : ℕ := 0

/-- Modelled from the spec: see `kP1XIdx`. -/
def kP1YIdx : ℕ := 1

/-- Modelled from the spec: see `kP1XIdx`. -/
def kP1ThetaIdx : ℕ := 2

/-- Modelled from the spec: see `kP1XIdx`. -/
def kP1OmegaIdx : ℕ := 3

/-- The initial state set up by the `OnePlayerReachabilityExample`
constructor: `x0_ = VectorXf::Zero(XDim())` followed by the four indexed
assignments. -/
def x0 : Vec :=
  ((((vecZero 4).set kP1XIdx kP1InitialX).set kP1YIdx
      kP1InitialY).set kP1ThetaIdx kP1InitialTheta).set kP1OmegaIdx
    kP1InitialOmega

/-! Helper lemmas about the vector model. -/

theorem getD_map_range {α : Type} (d : α) (n t : ℕ) (f : ℕ → α) (h : t < n) :
    ((List.range n).map f).getD t d = f t := by
  rw [List.getD_eq_getElem _ _ (by simpa using h)]
  simp

theorem headD_map_range {α : Type} (d : α) (n : ℕ) (f : ℕ → α) (h : 0 < n) :
    ((List.range n).map f).headD d = f 0 := by
  cases n with
  | zero => omega
  | succ m => rw [List.range_succ_eq_map]; simp

theorem getD_zipWith (f : ℚ → ℚ → ℚ) (a b : Vec) (j : ℕ)
    (ha : j < a.length) (hb : j < b.length) :
    (List.zipWith f a b).getD j 0 = f (a.getD j 0) (b.getD j 0) := by
  rw [List.getD_eq_getElem _ _ (by simpa using ⟨ha, hb⟩),
    List.getD_eq_getElem _ _ ha, List.getD_eq_getElem _ _ hb]
  exact List.getElem_zipWith (h := by simpa using ⟨ha, hb⟩)

theorem matVec_length (M : Mat) (v : Vec) : (matVec M v).length = M.length := by
  simp [matVec]

theorem getD_matVec (M : Mat) (v : Vec) (j : ℕ) (hj : j < M.length) :
    (matVec M v).getD j 0 = dot (M.getD j []) v := by
  rw [List.getD_eq_getElem _ _ (by simpa [matVec] using hj),
    List.getD_eq_getElem _ _ hj]
  simp [matVec]

theorem dot_replicate_zero (n : ℕ) (v : Vec) :
    dot (List.replicate n 0) v = 0 := by
  induction n generalizing v with
  | zero => simp [dot]
  | succ m ih =>
    cases v with
    | nil => simp [dot]
    | cons x xs => simpa [dot, List.replicate_succ] using ih xs

theorem vecSub_replicate_zero (v : Vec) :
    vecSub v (List.replicate v.length 0) = v := by
  induction v with
  | nil => rfl
  | cons x xs ih => simpa [vecSub, List.replicate_succ] using ih

theorem dot_vecSub (r x y : Vec) (hx : x.length = r.length)
    (hy : y.length = r.length) :
    dot r (vecSub x y) = dot r x - dot r y := by
  induction r generalizing x y with
  | nil => cases x <;> cases y <;> simp [dot, vecSub]
  | cons a as ih =>
    cases x with
    | nil => simp at hx
    | cons b bs =>
      cases y with
      | nil => simp at hy
      | cons c cs =>
        simp only [List.length_cons] at hx hy
        have h := ih bs cs (by omega) (by omega)
        simp only [dot, vecSub, List.zipWith_cons_cons, List.sum_cons] at h ⊢
        rw [h]; ring

theorem getD_vecNeg (v : Vec) (j : ℕ) (hj : j < v.length) :
    (vecNeg v).getD j 0 = -(v.getD j 0) := by
  unfold vecNeg
  rw [List.getD_eq_getElem _ _ (by simpa using hj),
    List.getD_eq_getElem _ _ hj, List.getElem_map]

/-- Coefficient `j` of `Strategy::operator()`. -/
theorem apply_getD (s : Strategy) (t j : ℕ) (delta_x u_ref : Vec)
    (hP : (s.Ps.getD t []).length = u_ref.length)
    (hA : (s.alphas.getD t []).length = u_ref.length)
    (hj : j < u_ref.length) :
    (s.apply t delta_x u_ref).getD j 0 =
      u_ref.getD j 0 - dot ((s.Ps.getD t []).getD j []) delta_x
        - (s.alphas.getD t []).getD j 0 := by
  have h4 : j < (s.Ps.getD t []).length := by omega
  have h3 : j < (matVec (s.Ps.getD t []) delta_x).length := by
    rw [matVec_length]; omega
  have h2 : j < (s.alphas.getD t []).length := by omega
  have h1 : j < (vecSub u_ref (matVec (s.Ps.getD t []) delta_x)).length := by
    unfold vecSub
    rw [List.length_zipWith, matVec_length]; omega
  unfold Strategy.apply vecSub
  unfold vecSub at h1
  rw [getD_zipWith _ _ _ j h1 h2, getD_zipWith _ _ _ j hj h3,
    getD_matVec _ _ j h4]

/-- Coefficient `j` of `StrategyRef::operator()`. -/
theorem refApply_getD (s : StrategyRef) (t j : ℕ) (x : Vec)
    (hjP : j < (s.Ps.getD t []).length)
    (hjA : j < (s.alphas.getD t []).length) :
    (s.apply t x).getD j 0 =
      -dot ((s.Ps.getD t []).getD j []) x - (s.alphas.getD t []).getD j 0 := by
  have h3 : j < (matVec (s.Ps.getD t []) x).length := by
    rw [matVec_length]; omega
  have h1 : j < (vecNeg (matVec (s.Ps.getD t []) x)).length := by
    unfold vecNeg
    rw [List.length_map, matVec_length]; omega
  unfold StrategyRef.apply vecSub
  rw [getD_zipWith _ _ _ j h1 hjA, getD_vecNeg _ _ h3, getD_matVec _ _ j hjP]

/-- The gains of a `Strategy` built from a `StrategyRef` are the reference's
gains. -/
theorem fromRef_Ps (other : StrategyRef) (op : OperatingPointRef) (i : ℕ) :
    (Strategy.fromRef other op i).Ps = other.Ps := rfl

/-- The feedforward term of a `Strategy` built from a `StrategyRef`, at any
in-range timestep. -/
theorem fromRef_alphas_getD (other : StrategyRef) (op : OperatingPointRef)
    (i t : ℕ) (hlen : other.alphas.length = other.Ps.length)
    (ht : t < other.Ps.length) :
    (Strategy.fromRef other op i).alphas.getD t [] =
      vecSub (vecAdd (other.alphas.getD t []) ((op.us.getD t []).getD i []))
        (matVec (other.Ps.getD t []) (op.xs.getD t [])) := by
  unfold Strategy.fromRef
  rw [getD_map_range _ _ _ _ (by omega)]
  simp [ht]

/-- Coefficient `j` of the converted feedforward term
`alpha + u - P * xr`. -/
theorem convertAlpha_getD (P : Mat) (a u xr : Vec) (j : ℕ)
    (hja : j < a.length) (hju : j < u.length) (hjP : j < P.length) :
    (vecSub (vecAdd a u) (matVec P xr)).getD j 0 =
      a.getD j 0 + u.getD j 0 - dot (P.getD j []) xr := by
  have h1 : j < (vecAdd a u).length := by
    unfold vecAdd
    rw [List.length_zipWith]; omega
  have h2 : j < (matVec P xr).length := by rw [matVec_length]; omega
  unfold vecSub vecAdd
  unfold vecAdd at h1
  rw [getD_zipWith _ _ _ j h1 h2, getD_zipWith _ _ _ j hja hju,
    getD_matVec _ _ j hjP]

theorem make_Ps_length (h xdim udim : ℕ) (primals : List ℚ) (i0 : ℕ) :
    (StrategyRef.make h xdim udim primals i0).Ps.length = h := by
  simp [StrategyRef.make]

theorem make_alphas_length (h xdim udim : ℕ) (primals : List ℚ) (i0 : ℕ) :
    (StrategyRef.make h xdim udim primals i0).alphas.length = h := by
  simp [StrategyRef.make]

theorem make_Ps_headD (h xdim udim : ℕ) (primals : List ℚ) (i0 : ℕ)
    (h1 : 1 ≤ h) :
    (StrategyRef.make h xdim udim primals i0).Ps.headD [] =
      (List.range xdim).map fun r => (List.range udim).map fun c =>
        primals.getD (i0 + 0 * blockSize xdim udim + c * xdim + r) 0 :=
  headD_map_range _ _ _ (by omega)

theorem make_alphas_headD (h xdim udim : ℕ) (primals : List ℚ) (i0 : ℕ)
    (h1 : 1 ≤ h) :
    (StrategyRef.make h xdim udim primals i0).alphas.headD [] =
      (List.range udim).map fun j =>
        primals.getD (i0 + 0 * blockSize xdim udim + xdim * udim + j) 0 :=
  headD_map_range _ _ _ (by omega)

theorem make_Ps_headD_matSize (h xdim udim : ℕ) (primals : List ℚ) (i0 : ℕ)
    (h1 : 1 ≤ h) :
    matSize ((StrategyRef.make h xdim udim primals i0).Ps.headD []) =
      xdim * udim := by
  rw [make_Ps_headD h xdim udim primals i0 h1]
  unfold matSize
  rw [List.map_map]
  have hc : (List.length ∘ fun r => List.map (fun c =>
      primals.getD (i0 + 0 * blockSize xdim udim + c * xdim + r) 0)
      (List.range udim)) = fun _ => udim := by
    funext r; simp
  rw [hc, List.map_const', List.sum_replicate, smul_eq_mul]
  simp [Nat.mul_comm]

theorem make_alphas_headD_length (h xdim udim : ℕ) (primals : List ℚ)
    (i0 : ℕ) (h1 : 1 ≤ h) :
    ((StrategyRef.make h xdim udim primals i0).alphas.headD []).length =
      udim := by
  rw [make_alphas_headD h xdim udim primals i0 h1]; simp

theorem make_NumVariables (h xdim udim : ℕ) (primals : List ℚ) (i0 : ℕ)
    (h1 : 1 ≤ h) :
    (StrategyRef.make h xdim udim primals i0).NumVariables =
      h * (xdim * udim + udim) := by
  unfold StrategyRef.NumVariables
  rw [make_Ps_headD_matSize h xdim udim primals i0 h1,
    make_alphas_headD_length h xdim udim primals i0 h1, make_Ps_length]

/-- One per-timestep block of viewed indices is a contiguous range. -/
theorem block_eq_range' (x u b : ℕ) :
    pIndices x u b ++ aIndices u (b + x * u) =
      List.range' b (blockSize x u) := by
  unfold pIndices aIndices blockSize
  rw [show ((List.range (x * u)).map (b + ·)) = List.range' b (x * u) from
      (List.range'_eq_map_range b (x * u)).symm,
    show ((List.range u).map ((b + x * u) + ·)) = List.range' (b + x * u) u
      from (List.range'_eq_map_range _ _).symm]
  have h := List.range'_append b (x * u) u 1
  simp only [one_mul, Nat.mul_one] at h
  rw [h, Nat.add_comm]

/-- The full viewed layout is one contiguous range of the primal buffer. -/
theorem layout_eq_range' (h x u i0 : ℕ) :
    layout h x u i0 = List.range' i0 (h * blockSize x u) := by
  induction h with
  | zero => simp [layout]
  | succ n ih =>
    unfold layout at ih ⊢
    rw [List.range_succ, List.flatMap_append, ih]
    simp only [List.flatMap_cons, List.flatMap_nil, List.append_nil]
    rw [block_eq_range']
    have h2 := List.range'_append i0 (n * blockSize x u) (blockSize x u) 1
    simp only [one_mul, Nat.mul_one] at h2
    rw [h2]
    ring_nf

/-! Claim theorems. -/

/-- Claim C5: `Strategy::operator()(t, delta_x, u_ref)` implements the
control law `u_i(t) = u_ref_i(t) - P_t * delta_x - alpha_t`: coefficient `j`
of the returned vector is
`u_ref[j] - dot(row j of Ps[t], delta_x) - alphas[t][j]`, whenever the
gain's row count and the feedforward's length both equal the control
dimension `u_ref.length` at timestep `t`. -/
theorem claim_C5_apply_law (s : Strategy) (t j : ℕ) (delta_x u_ref : Vec)
    (hP : (s.Ps.getD t []).length = u_ref.length)
    (hA : (s.alphas.getD t []).length = u_ref.length)
    (hj : j < u_ref.length) :
    (s.apply t delta_x u_ref).getD j 0 =
      u_ref.getD j 0 - dot ((s.Ps.getD t []).getD j []) delta_x
        - (s.alphas.getD t []).getD j 0 :=
  apply_getD s t j delta_x u_ref hP hA hj

/-- Claim C5 witness. -/
theorem claim_C5_apply_law_witness :
    ((Strategy.mk [[[2, 3]]] [[5]]).Ps.getD 0 []).length = [7].length ∧
    ((Strategy.mk [[[2, 3]]] [[5]]).alphas.getD 0 []).length = [7].length ∧
    0 < [(7 : ℚ)].length ∧
    ((Strategy.mk [[[2, 3]]] [[5]]).apply 0 [1, 1] [7]).getD 0 0 =
      [(7 : ℚ)].getD 0 0
        - dot (((Strategy.mk [[[2, 3]]] [[5]]).Ps.getD 0 []).getD 0 []) [1, 1]
        - ((Strategy.mk [[[2, 3]]] [[5]]).alphas.getD 0 []).getD 0 0 :=
  ⟨by decide, by decide, by decide,
    claim_C5_apply_law (Strategy.mk [[[2, 3]]] [[5]]) 0 0 [1, 1] [7]
      (by decide) (by decide) (by decide)⟩

/-- Claim C6: the `Strategy(horizon, xdim, udim)` constructor produces the
zero strategy: at every timestep `t < horizon` the gain is the zero
`udim × xdim` matrix and the feedforward term is the zero `udim`-vector, and
the control law returns the reference control unchanged for every deviation
`delta_x` and every `u_ref` of dimension `udim`. -/
theorem claim_C6_init_zero (horizon xdim udim t : ℕ) (ht : t < horizon)
    (delta_x u_ref : Vec) (hu : u_ref.length = udim) :
    (Strategy.init horizon xdim udim).Ps.getD t [] = matZero udim xdim ∧
    (Strategy.init horizon xdim udim).alphas.getD t [] = vecZero udim ∧
    (Strategy.init horizon xdim udim).apply t delta_x u_ref = u_ref := by
  have hP : (Strategy.init horizon xdim udim).Ps.getD t [] =
      matZero udim xdim := by
    rw [List.getD_eq_getElem _ _ (by simpa [Strategy.init] using ht)]
    simp [Strategy.init]
  have hA : (Strategy.init horizon xdim udim).alphas.getD t [] =
      vecZero udim := by
    rw [List.getD_eq_getElem _ _ (by simpa [Strategy.init] using ht)]
    simp [Strategy.init]
  refine ⟨hP, hA, ?_⟩
  unfold Strategy.apply
  rw [hP, hA]
  have hmv : matVec (matZero udim xdim) delta_x = List.replicate udim 0 := by
    simp only [matVec, matZero, List.map_replicate]
    rw [show dot (vecZero xdim) delta_x = 0 from dot_replicate_zero _ _]
  unfold vecZero
  rw [hmv, ← hu, vecSub_replicate_zero, vecSub_replicate_zero]

/-- Claim C6 witness. -/
theorem claim_C6_init_zero_witness :
    0 < 2 ∧ [(4 : ℚ), 5].length = 2 ∧
    ((Strategy.init 2 3 2).Ps.getD 0 [] = matZero 2 3 ∧
      (Strategy.init 2 3 2).alphas.getD 0 [] = vecZero 2 ∧
      (Strategy.init 2 3 2).apply 0 [1, 2, 3] [4, 5] = [4, 5]) :=
  ⟨by decide, by decide,
    claim_C6_init_zero 2 3 2 0 (by decide) [1, 2, 3] [4, 5] (by decide)⟩

/-- Claim C1: the `Strategy(ref, op, player_idx)` constructor copies the
gains and sets, at every timestep `t` below the horizon,
`alphas[t] = ref.alphas[t] + op.us[t][player_idx] - ref.Ps[t] * op.xs[t]`
(exactly, hence to floating-point tolerance), provided the reference's two
sequences have the common length the `StrategyRef` constructor always
produces. -/
theorem claim_C1_fromRef_formula (ref : StrategyRef) (op : OperatingPointRef)
    (i t : ℕ) (hlen : ref.alphas.length = ref.Ps.length)
    (ht : t < ref.Ps.length) :
    (Strategy.fromRef ref op i).Ps.getD t [] = ref.Ps.getD t [] ∧
    (Strategy.fromRef ref op i).alphas.getD t [] =
      vecSub (vecAdd (ref.alphas.getD t []) ((op.us.getD t []).getD i []))
        (matVec (ref.Ps.getD t []) (op.xs.getD t [])) :=
  ⟨congrArg (fun l => List.getD l t []) (fromRef_Ps ref op i),
    fromRef_alphas_getD ref op i t hlen ht⟩

/-- Claim C1 witness. -/
theorem claim_C1_fromRef_formula_witness :
    (StrategyRef.mk [[[2]]] [[3]]).alphas.length =
      (StrategyRef.mk [[[2]]] [[3]]).Ps.length ∧
    0 < (StrategyRef.mk [[[2]]] [[3]]).Ps.length ∧
    ((Strategy.fromRef (StrategyRef.mk [[[2]]] [[3]])
        (OperatingPointRef.mk [[5]] [[[7]]]) 0).Ps.getD 0 [] =
      (StrategyRef.mk [[[2]]] [[3]]).Ps.getD 0 [] ∧
    (Strategy.fromRef (StrategyRef.mk [[[2]]] [[3]])
        (OperatingPointRef.mk [[5]] [[[7]]]) 0).alphas.getD 0 [] =
      vecSub (vecAdd ((StrategyRef.mk [[[2]]] [[3]]).alphas.getD 0 [])
          (((OperatingPointRef.mk [[5]] [[[7]]]).us.getD 0 []).getD 0 []))
        (matVec ((StrategyRef.mk [[[2]]] [[3]]).Ps.getD 0 [])
          ((OperatingPointRef.mk [[5]] [[[7]]]).xs.getD 0 []))) :=
  ⟨rfl, by decide,
    claim_C1_fromRef_formula (StrategyRef.mk [[[2]]] [[3]])
      (OperatingPointRef.mk [[5]] [[[7]]]) 0 0 rfl (by decide)⟩

/-- Claim C2 counterexample: the converted `Strategy` does not reproduce the
`StrategyRef` control law.  With a one-dimensional reference strategy
`P = [[1]]`, `alpha = [0]`, nominal state `x_ref = [1]`, nominal control
`u_ref = [0]`, and query state `x = [0]`, the reference returns
`-P*x - alpha = [0]` while the converted strategy applied at
`(t, x - x_ref, u_ref)` returns `[2]` — off by `2 * P * x_ref`, far beyond
any floating-point tolerance. -/
theorem claim_C2_counterexample :
    ¬ ((Strategy.fromRef (StrategyRef.mk [[[1]]] [[0]])
          (OperatingPointRef.mk [[1]] [[[0]]]) 0).apply 0
        (vecSub [0] ((OperatingPointRef.mk [[1]] [[[0]]]).xs.getD 0 []))
        (((OperatingPointRef.mk [[1]] [[[0]]]).us.getD 0 []).getD 0 [])
      = (StrategyRef.mk [[[1]]] [[0]]).apply 0 [0]) := by
  norm_num [Strategy.fromRef, Strategy.apply, StrategyRef.apply, vecSub,
    vecAdd, vecNeg, matVec, dot, List.range_succ]

/-- Claim C2 amended: the two control laws differ exactly by twice the gain
applied to the nominal state: for every well-dimensioned reference strategy,
operating point, timestep and query state, coefficient `j` of
`Strategy(ref, op, i).operator()(t, x - op.xs[t], op.us[t][i])` equals
coefficient `j` of `ref.operator()(t, x)` plus
`2 * dot(row j of ref.Ps[t], op.xs[t])`; in particular the two agree
exactly when `ref.Ps[t] * op.xs[t]` vanishes. -/
theorem claim_C2_amended (ref : StrategyRef) (op : OperatingPointRef)
    (i t j : ℕ) (x : Vec)
    (hlen : ref.alphas.length = ref.Ps.length)
    (ht : t < ref.Ps.length)
    (hrows : ∀ row ∈ ref.Ps.getD t [], row.length = x.length)
    (hxr : (op.xs.getD t []).length = x.length)
    (hu : ((op.us.getD t []).getD i []).length = (ref.Ps.getD t []).length)
    (ha : (ref.alphas.getD t []).length = (ref.Ps.getD t []).length)
    (hj : j < (ref.Ps.getD t []).length) :
    ((Strategy.fromRef ref op i).apply t (vecSub x (op.xs.getD t []))
        ((op.us.getD t []).getD i [])).getD j 0 =
      (ref.apply t x).getD j 0
        + 2 * dot ((ref.Ps.getD t []).getD j []) (op.xs.getD t []) := by
  have halpha := fromRef_alphas_getD ref op i t hlen ht
  have hα'len : ((Strategy.fromRef ref op i).alphas.getD t []).length =
      ((op.us.getD t []).getD i []).length := by
    rw [halpha]
    unfold vecSub vecAdd
    rw [List.length_zipWith, List.length_zipWith, matVec_length]
    omega
  have hPlen : ((Strategy.fromRef ref op i).Ps.getD t []).length =
      ((op.us.getD t []).getD i []).length := by
    rw [fromRef_Ps]; omega
  have hlhs := apply_getD (Strategy.fromRef ref op i) t j
    (vecSub x (op.xs.getD t [])) ((op.us.getD t []).getD i [])
    hPlen hα'len (by omega)
  rw [hlhs, fromRef_Ps, halpha,
    convertAlpha_getD _ _ _ _ j (by omega) (by omega) hj,
    refApply_getD ref t j x hj (by omega)]
  have hrow : ((ref.Ps.getD t []).getD j []).length = x.length :=
    hrows _ (by
      rw [List.getD_eq_getElem _ _ hj]
      exact List.getElem_mem hj)
  rw [dot_vecSub _ _ _ hrow.symm (by omega)]
  ring

/-- Claim C2 amended witness. -/
theorem claim_C2_amended_witness :
    (StrategyRef.mk [[[1]]] [[0]]).alphas.length =
      (StrategyRef.mk [[[1]]] [[0]]).Ps.length ∧
    0 < (StrategyRef.mk [[[1]]] [[0]]).Ps.length ∧
    (∀ row ∈ (StrategyRef.mk [[[1]]] [[0]]).Ps.getD 0 [],
      row.length = [(0 : ℚ)].length) ∧
    (((Strategy.fromRef (StrategyRef.mk [[[1]]] [[0]])
          (OperatingPointRef.mk [[1]] [[[0]]]) 0).apply 0
        (vecSub [0] ((OperatingPointRef.mk [[1]] [[[0]]]).xs.getD 0 []))
        (((OperatingPointRef.mk [[1]] [[[0]]]).us.getD 0 []).getD 0 [])).getD
          0 0 =
      ((StrategyRef.mk [[[1]]] [[0]]).apply 0 [0]).getD 0 0
        + 2 * dot (((StrategyRef.mk [[[1]]] [[0]]).Ps.getD 0 []).getD 0 [])
            ((OperatingPointRef.mk [[1]] [[[0]]]).xs.getD 0 [])) :=
  ⟨rfl, by decide, by decide,
    claim_C2_amended (StrategyRef.mk [[[1]]] [[0]])
      (OperatingPointRef.mk [[1]] [[[0]]]) 0 0 0 [0] rfl (by decide)
      (by decide) (by decide) (by decide) (by decide) (by decide)⟩

/-- Claim C3: the `Strategy(horizon, xdim, udim)` constructor does produce
`udim × xdim` gains of the claimed shape, and feedforward vectors of length
`udim`, with both sequences of length exactly `horizon`. -/
theorem strategy_init_shapes (horizon xdim udim t : ℕ) (ht : t < horizon) :
    (Strategy.init horizon xdim udim).Ps.length = horizon ∧
    (Strategy.init horizon xdim udim).alphas.length = horizon ∧
    ((Strategy.init horizon xdim udim).Ps.getD t []).length = udim ∧
    (∀ row ∈ (Strategy.init horizon xdim udim).Ps.getD t [],
      row.length = xdim) ∧
    ((Strategy.init horizon xdim udim).alphas.getD t []).length = udim := by
  have hP : (Strategy.init horizon xdim udim).Ps.getD t [] =
      matZero udim xdim := by
    rw [List.getD_eq_getElem _ _ (by simpa [Strategy.init] using ht)]
    simp [Strategy.init]
  have hA : (Strategy.init horizon xdim udim).alphas.getD t [] =
      vecZero udim := by
    rw [List.getD_eq_getElem _ _ (by simpa [Strategy.init] using ht)]
    simp [Strategy.init]
  refine ⟨by simp [Strategy.init], by simp [Strategy.init], ?_, ?_, ?_⟩
  · rw [hP]; simp [matZero]
  · rw [hP]
    intro row hrow
    rw [List.eq_of_mem_replicate hrow]
    simp [vecZero]
  · rw [hA]; simp [vecZero]

/-- Claim C3, the divergent part: the `StrategyRef` constructor calls
`Eigen::Map<MatrixXf>(&primals(idx), xdim, udim)`, whose second and third
arguments are the row and column counts, so the mapped gain has `xdim` rows
of length `udim` — not `udim` rows of length `xdim` as the spec states and
as `StrategyRef::operator()` (which forms `Ps[t] * x` with `x` of dimension
`xdim`) requires.  At `horizon = 1`, `xdim = 3`, `udim = 2` the gain is a
`3 × 2` matrix. -/
theorem claim_C3_ref_shape_bug :
    ((StrategyRef.make 1 3 2 [1, 2, 3, 4, 5, 6, 7, 8] 0).Ps.getD 0
      []).length = 3 ∧
    (∀ row ∈ (StrategyRef.make 1 3 2 [1, 2, 3, 4, 5, 6, 7, 8] 0).Ps.getD 0 [],
      row.length = 2) ∧
    ¬ ((StrategyRef.make 1 3 2 [1, 2, 3, 4, 5, 6, 7, 8] 0).Ps.getD 0
      []).length = 2 ∧
    ((StrategyRef.make 1 3 2 [1, 2, 3, 4, 5, 6, 7, 8] 0).alphas.getD 0
      []).length = 2 := by
  refine ⟨?_, ?_, ?_, ?_⟩ <;>
    simp [StrategyRef.make, blockSize, List.range_succ]

/-- Claim C4: for every horizon `h ≥ 1`, `NumVariables()` of the zero-built
`Strategy` and of a constructed `StrategyRef` equals
`h * (udim * xdim + udim)`, and a `Strategy` converted from a `StrategyRef`
has the reference's `NumVariables()` whenever the dimensions are consistent
(the conversion's matrix arithmetic requires `xdim = udim` and a nominal
control of dimension `udim`). -/
theorem claim_C4_numVariables (h xdim udim : ℕ) (primals : List ℚ) (i0 : ℕ)
    (h1 : 1 ≤ h) :
    (Strategy.init h xdim udim).NumVariables = h * (udim * xdim + udim) ∧
    (StrategyRef.make h xdim udim primals i0).NumVariables =
      h * (udim * xdim + udim) ∧
    (∀ op : OperatingPointRef, ∀ i : ℕ, xdim = udim →
      ((op.us.getD 0 []).getD i []).length = udim →
      (Strategy.fromRef (StrategyRef.make h xdim udim primals i0) op
        i).NumVariables =
      (StrategyRef.make h xdim udim primals i0).NumVariables) := by
  have hinitP : (Strategy.init h xdim udim).Ps.headD [] = matZero udim xdim := by
    cases h with
    | zero => omega
    | succ m => simp [Strategy.init, List.replicate_succ]
  have hinitA : (Strategy.init h xdim udim).alphas.headD [] = vecZero udim := by
    cases h with
    | zero => omega
    | succ m => simp [Strategy.init, List.replicate_succ]
  have hmakeP := make_Ps_headD h xdim udim primals i0 h1
  have hmakeAlen := make_alphas_headD_length h xdim udim primals i0 h1
  refine ⟨?_, ?_, ?_⟩
  · unfold Strategy.NumVariables
    rw [hinitP, hinitA]
    have : matSize (matZero udim xdim) = udim * xdim := by
      simp [matSize, matZero, vecZero]
    rw [this]
    simp [Strategy.init, vecZero]
  · rw [make_NumVariables h xdim udim primals i0 h1, Nat.mul_comm xdim udim]
  · intro op i hsq hu
    unfold Strategy.NumVariables StrategyRef.NumVariables
    rw [fromRef_Ps]
    have halen : (Strategy.fromRef (StrategyRef.make h xdim udim primals i0)
        op i).alphas.headD [] =
        vecSub (vecAdd ((StrategyRef.make h xdim udim primals
            i0).alphas.getD 0 []) ((op.us.getD 0 []).getD i []))
          (matVec ((StrategyRef.make h xdim udim primals i0).Ps.getD 0 [])
            (op.xs.getD 0 [])) := by
      unfold Strategy.fromRef
      rw [headD_map_range _ _ _ (by simp [StrategyRef.make]; omega)]
      have h0 : 0 < (StrategyRef.make h xdim udim primals i0).Ps.length := by
        simp [StrategyRef.make]; omega
      simp only [if_pos h0]
    rw [halen]
    have hα0 : ((StrategyRef.make h xdim udim primals i0).alphas.getD 0
        []).length = udim := by
      rw [show (StrategyRef.make h xdim udim primals i0).alphas.getD 0 [] =
          (StrategyRef.make h xdim udim primals i0).alphas.headD [] by
        cases hm : (StrategyRef.make h xdim udim primals i0).alphas with
        | nil => rfl
        | cons a as => rfl]
      exact hmakeAlen
    have hP0 : ((StrategyRef.make h xdim udim primals i0).Ps.getD 0
        []).length = xdim := by
      rw [show (StrategyRef.make h xdim udim primals i0).Ps.getD 0 [] =
          (StrategyRef.make h xdim udim primals i0).Ps.headD [] by
        cases hm : (StrategyRef.make h xdim udim primals i0).Ps with
        | nil => rfl
        | cons a as => rfl]
      rw [hmakeP]; simp
    have : (vecSub (vecAdd ((StrategyRef.make h xdim udim primals
        i0).alphas.getD 0 []) ((op.us.getD 0 []).getD i []))
        (matVec ((StrategyRef.make h xdim udim primals i0).Ps.getD 0 [])
          (op.xs.getD 0 []))).length = udim := by
      unfold vecSub vecAdd
      rw [List.length_zipWith, List.length_zipWith, matVec_length, hα0, hu,
        hP0, hsq]
      omega
    rw [this, hmakeAlen]

/-- Claim C4 witness. -/
theorem claim_C4_numVariables_witness :
    1 ≤ 2 ∧
    ((Strategy.init 2 3 3).NumVariables = 2 * (3 * 3 + 3) ∧
    (StrategyRef.make 2 3 3 [5] 0).NumVariables = 2 * (3 * 3 + 3) ∧
    (∀ op : OperatingPointRef, ∀ i : ℕ, 3 = 3 →
      ((op.us.getD 0 []).getD i []).length = 3 →
      (Strategy.fromRef (StrategyRef.make 2 3 3 [5] 0) op i).NumVariables =
        (StrategyRef.make 2 3 3 [5] 0).NumVariables)) :=
  ⟨by decide, claim_C4_numVariables 2 3 3 [5] 0 (by decide)⟩

/-- Claim C8: every object built by the provided constructors has gain and
feedforward sequences of equal length, so the
`CHECK_EQ(horizon, alphas.size())` inside `NumVariables()` never fires; and
when the construction horizon is at least 1 both sequences are nonempty, so
`Ps.front()` and `alphas.front()` are well-defined. -/
theorem claim_C8_check_invariant (h xdim udim : ℕ) (primals : List ℚ)
    (i0 : ℕ) (op : OperatingPointRef) (i : ℕ) :
    (Strategy.init h xdim udim).checkOk ∧
    (StrategyRef.make h xdim udim primals i0).checkOk ∧
    (Strategy.fromRef (StrategyRef.make h xdim udim primals i0) op
      i).checkOk ∧
    (1 ≤ h →
      (Strategy.init h xdim udim).Ps ≠ [] ∧
      (Strategy.init h xdim udim).alphas ≠ [] ∧
      (StrategyRef.make h xdim udim primals i0).Ps ≠ [] ∧
      (StrategyRef.make h xdim udim primals i0).alphas ≠ [] ∧
      (Strategy.fromRef (StrategyRef.make h xdim udim primals i0) op
        i).Ps ≠ [] ∧
      (Strategy.fromRef (StrategyRef.make h xdim udim primals i0) op
        i).alphas ≠ []) := by
  refine ⟨by simp [Strategy.checkOk, Strategy.init],
    by simp [StrategyRef.checkOk, StrategyRef.make],
    by simp [Strategy.checkOk, Strategy.fromRef, StrategyRef.make], ?_⟩
  intro h1
  refine ⟨?_, ?_, ?_, ?_, ?_, ?_⟩ <;>
    [skip; skip; skip; skip; skip; skip] <;>
    refine List.ne_nil_of_length_pos ?_ <;>
    simp [Strategy.init, StrategyRef.make, Strategy.fromRef] <;> omega

/-- Claim C8 witness. -/
theorem claim_C8_check_invariant_witness :
    (Strategy.init 1 2 3).checkOk ∧
    (StrategyRef.make 1 2 3 [4] 0).checkOk ∧
    (Strategy.fromRef (StrategyRef.make 1 2 3 [4] 0)
      (OperatingPointRef.mk [] []) 0).checkOk ∧
    (1 ≤ 1 →
      (Strategy.init 1 2 3).Ps ≠ [] ∧
      (Strategy.init 1 2 3).alphas ≠ [] ∧
      (StrategyRef.make 1 2 3 [4] 0).Ps ≠ [] ∧
      (StrategyRef.make 1 2 3 [4] 0).alphas ≠ [] ∧
      (Strategy.fromRef (StrategyRef.make 1 2 3 [4] 0)
        (OperatingPointRef.mk [] []) 0).Ps ≠ [] ∧
      (Strategy.fromRef (StrategyRef.make 1 2 3 [4] 0)
        (OperatingPointRef.mk [] []) 0).alphas ≠ []) :=
  claim_C8_check_invariant 1 2 3 [4] 0 (OperatingPointRef.mk [] []) 0

/-- Claim C9: `StrategyRef(h, xdim, udim, primals, i0)` partitions a
contiguous block of the primal buffer.  The viewed indices, in layout order
`P_0, alpha_0, ..., P_{h-1}, alpha_{h-1}`, are exactly the consecutive
range `[i0, i0 + h * (xdim*udim + udim))` (a `List.range'`, hence pairwise
distinct consecutive ranges in order), their count equals `NumVariables()`,
and every coefficient of every `Ps[k]` and `alphas[k]` equals the primal
entry at its index in that layout. -/
theorem claim_C9_buffer_partition (h xdim udim i0 : ℕ) (primals : List ℚ)
    (h1 : 1 ≤ h) :
    layout h xdim udim i0 = List.range' i0 (h * blockSize xdim udim) ∧
    (layout h xdim udim i0).length =
      (StrategyRef.make h xdim udim primals i0).NumVariables ∧
    (∀ k, k < h → ∀ r, r < xdim → ∀ c, c < udim →
      (((StrategyRef.make h xdim udim primals i0).Ps.getD k []).getD r
          []).getD c 0 =
        primals.getD (i0 + k * blockSize xdim udim + c * xdim + r) 0 ∧
      (i0 + k * blockSize xdim udim + c * xdim + r) ∈
        pIndices xdim udim (i0 + k * blockSize xdim udim)) ∧
    (∀ k, k < h → ∀ j, j < udim →
      ((StrategyRef.make h xdim udim primals i0).alphas.getD k []).getD j 0 =
        primals.getD (i0 + k * blockSize xdim udim + xdim * udim + j) 0 ∧
      (i0 + k * blockSize xdim udim + xdim * udim + j) ∈
        aIndices udim (i0 + k * blockSize xdim udim + xdim * udim)) := by
  refine ⟨layout_eq_range' h xdim udim i0, ?_, ?_, ?_⟩
  · rw [layout_eq_range' h xdim udim i0, List.length_range',
      make_NumVariables h xdim udim primals i0 h1]
    unfold blockSize
    rfl
  · intro k hk r hr c hc
    constructor
    · unfold StrategyRef.make
      rw [getD_map_range _ _ _ _ hk, getD_map_range _ _ _ _ hr,
        getD_map_range _ _ _ _ hc]
    · have hm : c * xdim + r < xdim * udim := by
        calc c * xdim + r < c * xdim + xdim := by omega
        _ = (c + 1) * xdim := by ring
        _ ≤ udim * xdim := Nat.mul_le_mul_right _ (by omega)
        _ = xdim * udim := Nat.mul_comm _ _
      unfold pIndices
      rw [List.mem_map]
      exact ⟨c * xdim + r, List.mem_range.mpr hm, by omega⟩
  · intro k hk j hj
    constructor
    · unfold StrategyRef.make
      rw [getD_map_range _ _ _ _ hk, getD_map_range _ _ _ _ hj]
    · unfold aIndices
      rw [List.mem_map]
      exact ⟨j, List.mem_range.mpr hj, by omega⟩

/-- Claim C9 witness. -/
theorem claim_C9_buffer_partition_witness :
    1 ≤ 1 ∧
    (layout 1 2 1 3 = List.range' 3 (1 * blockSize 2 1) ∧
    (layout 1 2 1 3).length =
      (StrategyRef.make 1 2 1 [0, 1, 2, 3, 4, 5, 6] 3).NumVariables ∧
    (∀ k, k < 1 → ∀ r, r < 2 → ∀ c, c < 1 →
      (((StrategyRef.make 1 2 1 [0, 1, 2, 3, 4, 5, 6] 3).Ps.getD k
          []).getD r []).getD c 0 =
        [(0 : ℚ), 1, 2, 3, 4, 5, 6].getD (3 + k * blockSize 2 1 + c * 2 + r)
          0 ∧
      (3 + k * blockSize 2 1 + c * 2 + r) ∈
        pIndices 2 1 (3 + k * blockSize 2 1)) ∧
    (∀ k, k < 1 → ∀ j, j < 1 →
      ((StrategyRef.make 1 2 1 [0, 1, 2, 3, 4, 5, 6] 3).alphas.getD k
        []).getD j 0 =
        [(0 : ℚ), 1, 2, 3, 4, 5, 6].getD (3 + k * blockSize 2 1 + 2 * 1 + j)
          0 ∧
      (3 + k * blockSize 2 1 + 2 * 1 + j) ∈
        aIndices 1 (3 + k * blockSize 2 1 + 2 * 1))) :=
  ⟨by decide, claim_C9_buffer_partition 1 2 1 3 [0, 1, 2, 3, 4, 5, 6]
    (by decide)⟩

theorem sgnSigned_eq {α : Type} [LinearOrderedRing α] (x : α) :
    sgnSigned x = if 0 < x then 1 else if x < 0 then -1 else 0 := by
  unfold sgnSigned
  by_cases h1 : 0 < x <;> by_cases h2 : x < 0
  · exact absurd h2 (lt_asymm h1)
  · simp [h1, h2]
  · simp [h1, h2]
  · simp [h1, h2]

/-- Claim C10: `sgn` returns 1, -1 or 0 on signed arithmetic types
(instantiated at `ℤ` and `ℚ`) according to the sign of its argument, and
1 or 0 on unsigned types (instantiated at `ℕ`). -/
theorem claim_C10_sgn :
    (∀ x : ℤ, sgnSigned x = if 0 < x then 1 else if x < 0 then -1 else 0) ∧
    (∀ x : ℚ, sgnSigned x = if 0 < x then 1 else if x < 0 then -1 else 0) ∧
    (∀ x : ℕ, sgnUnsigned x = if 0 < x then 1 else 0) :=
  ⟨fun x => sgnSigned_eq x, fun x => sgnSigned_eq x, fun _ => rfl⟩

theorem rne_eq_of_lt_half (x : ℚ) (n : ℤ) (h1 : (n : ℚ) ≤ x)
    (h2 : x < n + 1 / 2) : rne x = n := by
  have hf : ⌊x⌋ = n := Int.floor_eq_iff.mpr ⟨h1, by linarith⟩
  unfold rne
  rw [hf, if_pos (by linarith)]

theorem rne_eq_of_gt_half (x : ℚ) (n : ℤ) (h1 : (n : ℚ) + 1 / 2 < x)
    (h2 : x < n + 1) : rne x = n + 1 := by
  have hf : ⌊x⌋ = n := Int.floor_eq_iff.mpr ⟨by linarith, h2⟩
  unfold rne
  rw [hf, if_neg (by linarith), if_pos (by linarith)]

theorem kTimeStep_eq : kTimeStep = 13421773 / 2 ^ 27 := by
  unfold kTimeStep round32In
  rw [show (23 - (-4 : ℤ)) = (27 : ℤ) from rfl,
    show ((-4 : ℤ) - 23) = (-27 : ℤ) from rfl,
    rne_eq_of_gt_half _ 13421772 (by norm_num [kTimeStepLiteral])
      (by norm_num [kTimeStepLiteral])]
  norm_num

theorem kP1InitialTheta_eq : kP1InitialTheta = -(13176795 / 2 ^ 22) := by
  unfold kP1InitialTheta round32In
  rw [show ((23 : ℤ) - 1) = (22 : ℤ) from rfl,
    show ((1 : ℤ) - 23) = (-22 : ℤ) from rfl,
    rne_eq_of_gt_half _ 13176794 (by norm_num [kPiLiteral])
      (by norm_num [kPiLiteral])]
  norm_num

theorem quotient_rounds_to_20 :
    round32In 4 (kTimeHorizon / kTimeStep) = 20 := by
  unfold round32In kTimeHorizon
  rw [kTimeStep_eq, show ((23 : ℤ) - 4) = (19 : ℤ) from rfl,
    show ((4 : ℤ) - 23) = (-19 : ℤ) from rfl,
    rne_eq_of_gt_half _ 10485759 (by norm_num) (by norm_num)]
  norm_num

/-- Claim C7: the one-player reachability example's configuration.  The
double literal `0.1` is the correct binary64 rounding of 1/10; narrowed to
float it is `13421773 / 2^27 > 1/10`, so the float quotient
`kTimeHorizon / kTimeStep` is slightly below 20, rounds (in the binade
`[2^4, 2^5)`) back up to exactly `20.0f`, and truncation gives
`kNumTimeSteps = 20`.  The initial state is `(x, y, theta, omega) =
(2, 2, -pi, 0)` with `theta` the float narrowing of `-M_PI`, within `1e-6`
of `-pi`; the goal circle is centered at `(0, 0)` with radius `0.5`. -/
theorem claim_C7_example_config :
    (kTimeStepLiteral = round64In (-4) (1 / 10) ∧
      (1 / 2 ^ 4 : ℚ) ≤ 1 / 10 ∧ (1 / 10 : ℚ) < 1 / 2 ^ 3 ∧
      1 / 2 ^ 4 ≤ kTimeStepLiteral ∧ kTimeStepLiteral < 1 / 2 ^ 3 ∧
      kTimeStep = 13421773 / 2 ^ 27) ∧
    ((2 : ℚ) ^ 4 ≤ kTimeHorizon / kTimeStep ∧
      kTimeHorizon / kTimeStep < 2 ^ 5 ∧
      round32In 4 (kTimeHorizon / kTimeStep) = 20 ∧
      kNumTimeSteps = 20) ∧
    (x0.getD kP1XIdx 0 = 2 ∧ x0.getD kP1YIdx 0 = 2 ∧
      x0.getD kP1ThetaIdx 0 = kP1InitialTheta ∧
      x0.getD kP1OmegaIdx 0 = 0 ∧
      (2 : ℚ) ≤ kPiLiteral ∧ kPiLiteral < 4 ∧
      kP1InitialTheta = -(13176795 / 2 ^ 22) ∧
      |(kP1InitialTheta : ℝ) + Real.pi| < 1 / 1000000) ∧
    (kP1GoalX = 0 ∧ kP1GoalY = 0 ∧ kTargetRadius = 1 / 2) := by
  refine ⟨⟨?_, by norm_num, by norm_num, by norm_num [kTimeStepLiteral],
      by norm_num [kTimeStepLiteral], kTimeStep_eq⟩,
    ⟨?_, ?_, quotient_rounds_to_20, ?_⟩,
    ⟨rfl, rfl, rfl, rfl, by norm_num [kPiLiteral], by norm_num [kPiLiteral],
      kP1InitialTheta_eq, ?_⟩,
    ⟨rfl, rfl, rfl⟩⟩
  · unfold round64In
    rw [show (52 - (-4 : ℤ)) = (56 : ℤ) from rfl,
      show ((-4 : ℤ) - 52) = (-56 : ℤ) from rfl,
      rne_eq_of_gt_half _ 7205759403792793 (by norm_num) (by norm_num)]
    norm_num [kTimeStepLiteral]
  · rw [kTimeStep_eq]
    norm_num [kTimeHorizon]
  · rw [kTimeStep_eq]
    norm_num [kTimeHorizon]
  · unfold kNumTimeSteps
    rw [quotient_rounds_to_20]
    norm_num
    rfl
  · rw [kP1InitialTheta_eq]
    push_cast
    rw [abs_lt]
    constructor <;> nlinarith [Real.pi_gt_d6, Real.pi_lt_d6]

end ILQGames
